import Mathlib

/-!
# traefik-plugin-geoblock: a shallow embedding of `plugin.go`

The plugin sits in front of a downstream `http.Handler`.  For every request it
collects candidate client IPs from two forwarding headers, resolves each to a
country through an ip2location database, and either hands the request on or
answers `403 Forbidden`.

Modelling conventions

* Go strings are Lean `String`s (sequences of code points; byte strings that are
  not valid UTF-8 are outside the model).
* A nullable Go pointer or interface value is an `Option`; calling through `nil`
  is the terminal effect `Effect.panic`.
* A Go result pair `(v, err)` is a Lean pair whose second component is
  `Option GoError` (`none` is the `nil` error).
* The external world (the downstream handler, the response writer, the logger,
  the database file) is observed through the list of calls a function makes,
  its `Effect` trace, in program order.
* The ip2location library is not part of the repository: the database handle is
  a parameter (`DB`), and so is `ip2location.OpenDB`.
* Go leaves the iteration order of `range` over a map unspecified; the order is
  the parameter `MapOrder`, which may be any permutation of the keys.
-/

namespace Geoblock

/-! ## Errors -/

/-- Go `error` values as far as the plugin builds and inspects them. -/
inductive GoError where
  /-- The package-level sentinel `ErrNotAllowed = errors.New("not allowed")`. -/
  | ErrNotAllowed : GoError
  /-- An error made by `errors.New` or by `fmt.Errorf` without `%w`, or one handed
  back by the database library. -/
  | plain (text : String) : GoError
  /-- An error made by `fmt.Errorf` with `%w`: the formatted text and the wrapped error. -/
  | wrap (text : String) (inner : GoError) : GoError
  deriving DecidableEq, Repr

/-- The `Error()` method: the message of an error. -/
def GoError.Error : GoError → String
  | .ErrNotAllowed => "not allowed"
  | .plain text => text
  | .wrap text _ => text

/-- Go `errors.Is(err, target)`: `err` or an error in its `Unwrap` chain equals `target`. -/
def errorsIs : GoError → GoError → Bool
  | .wrap text inner, target => decide (GoError.wrap text inner = target) || errorsIs inner target
  | .ErrNotAllowed, target => decide (GoError.ErrNotAllowed = target)
  | .plain text, target => decide (GoError.plain text = target)

/-! ## Strings -/

/-- Go `unicode.IsSpace`, the test `strings.TrimSpace` applies to each code point. -/
def isSpace (c : Char) : Bool :=
  let n := c.toNat
  n = 0x09 || n = 0x0A || n = 0x0B || n = 0x0C || n = 0x0D || n = 0x20 ||
  n = 0x85 || n = 0xA0 || n = 0x1680 || (0x2000 ≤ n && n ≤ 0x200A) ||
  n = 0x2028 || n = 0x2029 || n = 0x202F || n = 0x205F || n = 0x3000

/-- Go `strings.TrimSpace`: drop leading and trailing white space. -/
def TrimSpace (s : String) : String :=
  ⟨((s.data.dropWhile isSpace).reverse.dropWhile isSpace).reverse⟩

/-- The pieces of a character list between occurrences of `sep`. -/
def splitChars (sep : Char) : List Char → List (List Char)
  | [] => [[]]
  | c :: cs =>
    if c = sep then [] :: splitChars sep cs
    else
      match splitChars sep cs with
      | [] => [[c]]
      | piece :: pieces => (c :: piece) :: pieces

/-- Go `strings.Split(s, sep)` for a separator of one character: `n + 1` pieces
for `n` occurrences of the separator. -/
def Split (s : String) (sep : Char) : List String :=
  (splitChars sep s.data).map String.mk

/-- Go `unicode.ToLower` restricted to what can matter for a comparison with an
ASCII string: `A`..`Z` go to `a`..`z`, and the only two other code points whose
lower case is ASCII are U+0130 (to `i`) and U+212A (to `k`).  Every other code
point is left as it is (Go sends it to a code point outside ASCII). -/
def toLowerRune (c : Char) : Char :=
  if 'A'.toNat ≤ c.toNat ∧ c.toNat ≤ 'Z'.toNat then Char.ofNat (c.toNat + 32)
  else if c.toNat = 0x130 then 'i'
  else if c.toNat = 0x212A then 'k'
  else c

/-- Go `strings.ToLower`. -/
def ToLower (s : String) : String := ⟨s.data.map toLowerRune⟩

/-- Go `strings.HasPrefix(s, pre)`. -/
def HasPrefix (s pre : String) : Bool := pre.data.isPrefixOf s.data

/-! ## Requests and headers -/

/-- Go `textproto.validHeaderFieldByte`: the token characters of RFC 7230. -/
def validHeaderFieldByte (c : Char) : Bool :=
  let n := c.toNat
  (0x30 ≤ n && n ≤ 0x39) || (0x41 ≤ n && n ≤ 0x5A) || (0x61 ≤ n && n ≤ 0x7A) ||
  n = 0x21 || n = 0x23 || n = 0x24 || n = 0x25 || n = 0x26 || n = 0x27 || n = 0x2A ||
  n = 0x2B || n = 0x2D || n = 0x2E || n = 0x5E || n = 0x5F || n = 0x60 || n = 0x7C ||
  n = 0x7E

/-- The loop of `textproto.canonicalMIMEHeaderKey`: upper-case the first letter
and every letter after a hyphen, lower-case the others. -/
def canonicalLoop : Bool → List Char → List Char
  | _, [] => []
  | upper, c :: cs =>
    let c1 :=
      if upper && decide ('a'.toNat ≤ c.toNat ∧ c.toNat ≤ 'z'.toNat) then Char.ofNat (c.toNat - 32)
      else if !upper && decide ('A'.toNat ≤ c.toNat ∧ c.toNat ≤ 'Z'.toNat) then Char.ofNat (c.toNat + 32)
      else c
    c1 :: canonicalLoop (c1 = '-') cs

/-- Go `textproto.CanonicalMIMEHeaderKey`: a key with a character that is not a
token character is returned unchanged. -/
def CanonicalMIMEHeaderKey (key : String) : String :=
  if key.data.all validHeaderFieldByte then ⟨canonicalLoop true key.data⟩ else key

/-- Go `http.Header`, a `map[string][]string`, as an association list; the first
entry for a key is the map entry. -/
abbrev Header := List (String × List String)

/-- The map read `h[CanonicalMIMEHeaderKey(key)]`; an absent key reads as the nil slice. -/
def Header.Values (h : Header) (key : String) : List String :=
  (h.lookup (CanonicalMIMEHeaderKey key)).getD []

/-- Go `Header.Get`: the first value of the key, or the empty string. -/
def Header.Get (h : Header) (key : String) : String :=
  match h.Values key with
  | [] => ""
  | v :: _ => v

/-- The parts of `http.Request` the plugin reads. -/
structure Request where
  Host : String
  Header : Header
  deriving DecidableEq, Repr

/-- An `http.ResponseWriter` value, known by its identity. -/
structure ResponseWriter where
  id : Nat
  deriving DecidableEq, Repr

/-- A non-nil `http.Handler` value, known by its identity. -/
structure Handler where
  id : Nat
  deriving DecidableEq, Repr

/-- Go `http.StatusForbidden`. -/
def StatusForbidden : Nat := 403

/-! ## The database library -/

/-- The field of `ip2location.IP2Locationrecord` the plugin reads. -/
structure IP2Locationrecord where
  Country_short : String
  deriving DecidableEq, Repr

/-- A non-nil `*ip2location.DB`: its method `Get_country_short`. -/
structure DB where
  Get_country_short : String → IP2Locationrecord × Option GoError

/-! ## Effects -/

/-- The calls a function of the plugin makes, in program order. -/
inductive Effect where
  /-- The call `log.Printf(...)` with the formatted message. -/
  | logPrintf (msg : String)
  /-- The call `ip2location.OpenDB(path)`. -/
  | openDB (path : String)
  /-- The call `p.GetRemoteIPs(req)`. -/
  | getRemoteIPs (req : Request)
  /-- The call `p.db.Get_country_short(ip)`. -/
  | dbGet (ip : String)
  /-- The call `rw.WriteHeader(code)`. -/
  | writeHeader (rw : ResponseWriter) (code : Nat)
  /-- The call `p.next.ServeHTTP(rw, req)`. -/
  | next (h : Handler) (rw : ResponseWriter) (req : Request)
  /-- A run-time panic (a call through a nil pointer or nil interface). -/
  | panic
  deriving DecidableEq, Repr

/-- The order in which `range` visits the keys of a map: any permutation. -/
structure MapOrder where
  range : List String → List String
  perm : ∀ keys, (range keys).Perm keys

/-! ## The plugin -/

/-- The plugin configuration. -/
structure Config where
  DatabaseFilePath : String := ""
  AllowedCountries : List String := []
  DisallowedCountries : List String := []
  Enabled : Bool := false
  AllowPrivate : Bool := false
  deriving DecidableEq, Repr

/-- Go `CreateConfig`: the zero configuration. -/
def CreateConfig : Config := {}

/-- The plugin state; the defaults are Go zero values. -/
structure Plugin where
  next : Option Handler := none
  name : String := ""
  db : Option DB := none
  enabled : Bool := false
  allowedCountries : List String := []
  allowPrivate : Bool := false
  disallowedCountries : List String := []

/-- What `New` hands back: the handler, the error, and the calls it made. -/
structure NewResult where
  handler : Option Plugin
  err : Option GoError
  effects : List Effect

/-- Go `New`: build the plugin handler from a configuration.  `OpenDB` is the
library function `ip2location.OpenDB`. -/
def New (OpenDB : String → Option DB × Option GoError) (_ctx : Unit)
    (next : Option Handler) (cfg : Option Config) (name : String) : NewResult :=
  match next with
  | none => ⟨none, some (.plain "no next handler provided"), []⟩
  | some _ =>
    match cfg with
    | none => ⟨none, some (.plain "no config provided"), []⟩
    | some cfg =>
      if cfg.DisallowedCountries.length > 0 ∧ cfg.AllowedCountries.length > 0 then
        ⟨none, some (.plain "either allowed countries or disallowed countries could be set at once"), []⟩
      else if !cfg.Enabled then
        ⟨some { next := next, name := name, db := none }, none,
          [.logPrintf (name ++ ": disabled")]⟩
      else if cfg.DatabaseFilePath = "" then
        ⟨none, some (.plain "no database file path defined"), []⟩
      else
        match OpenDB cfg.DatabaseFilePath with
        | (_, some err) =>
          ⟨none, some (.wrap ("failed to open database: " ++ err.Error) err),
            [.openDB cfg.DatabaseFilePath]⟩
        | (db, none) =>
          ⟨some { next := next, name := name, db := db, enabled := cfg.Enabled,
                  allowedCountries := cfg.AllowedCountries,
                  disallowedCountries := cfg.DisallowedCountries,
                  allowPrivate := cfg.AllowPrivate },
            none, [.openDB cfg.DatabaseFilePath]⟩

/-- Go `Plugin.Lookup`: query the database for the country of an IP.  `none` is
the panic of a call through a nil database pointer. -/
def Plugin.Lookup (p : Plugin) (ip : String) : Option (String × Option GoError) :=
  match p.db with
  | none => none
  | some db =>
    match db.Get_country_short ip with
    | (_, some err) => some ("", some err)
    | (record, none) =>
      let country := record.Country_short
      if HasPrefix (ToLower country) "invalid" then some ("", some (.plain country))
      else some (record.Country_short, none)

/-- The loop `for _, c := range countries { if c == country { found; break } }`. -/
def rangeFinds (country : String) : List String → Bool
  | [] => false
  | c :: cs => if c = country then true else rangeFinds country cs

/-- Go `Plugin.CheckAllowed`: the country of an IP and whether policy admits it. -/
def Plugin.CheckAllowed (p : Plugin) (ip : String) : Option (String × Option GoError) :=
  match p.Lookup ip with
  | none => none
  | some (_, some err) =>
    some ("", some (.wrap ("lookup of " ++ ip ++ " failed: " ++ err.Error) err))
  | some (country, none) =>
    if country = "-" then
      if p.allowPrivate then some (country, none)
      else some (country, some .ErrNotAllowed)
    else if p.allowedCountries.length > 0 ∧ !(rangeFinds country p.allowedCountries) then
      some (country, some .ErrNotAllowed)
    else if p.disallowedCountries.length > 0 ∧ rangeFinds country p.disallowedCountries then
      some (country, some .ErrNotAllowed)
    else some (country, none)

/-- The store `ipMap[ip] = struct{}{}` on a map kept as the list of its keys. -/
def mapInsert (ipMap : List String) (ip : String) : List String :=
  if ip ∈ ipMap then ipMap else ipMap ++ [ip]

/-- The loop over the pieces of one header value in `GetRemoteIPs`. -/
def collectIPs (ipMap : List String) : List String → List String
  | [] => ipMap
  | piece :: pieces =>
    let ip := TrimSpace piece
    if ip = "" then collectIPs ipMap pieces
    else collectIPs (mapInsert ipMap ip) pieces

/-- The map `ipMap` of `GetRemoteIPs` once both headers are read. -/
def remoteIPMap (req : Request) : List String :=
  let ipMap : List String := []
  let xff := req.Header.Get "x-forwarded-for"
  let ipMap := if xff ≠ "" then collectIPs ipMap (Split xff ',') else ipMap
  let xri := req.Header.Get "x-real-ip"
  let ipMap := if xri ≠ "" then collectIPs ipMap (Split xri ',') else ipMap
  ipMap

/-- Go `Plugin.GetRemoteIPs`: the keys of `ipMap` in the order `range` yields them. -/
def Plugin.GetRemoteIPs (_p : Plugin) (ord : MapOrder) (req : Request) : List String :=
  ord.range (remoteIPMap req)

/-- The call `p.next.ServeHTTP(rw, req)`. -/
def Plugin.callNext (p : Plugin) (rw : ResponseWriter) (req : Request) : List Effect :=
  match p.next with
  | none => [.panic]
  | some h => [.next h rw req]

/-- The loop `for _, ip := range ips` of `ServeHTTP` and the call after it. -/
def Plugin.serveLoop (p : Plugin) (rw : ResponseWriter) (req : Request) :
    List String → List Effect
  | [] => p.callNext rw req
  | ip :: ips =>
    .dbGet ip ::
      match p.CheckAllowed ip with
      | none => [.panic]
      | some (country, some err) =>
        if errorsIs err .ErrNotAllowed then
          [.logPrintf (p.name ++ ": " ++ req.Host ++ " - access denied for " ++ ip ++
              " (" ++ country ++ ")"),
           .writeHeader rw StatusForbidden]
        else
          [.logPrintf (p.name ++ ": " ++ req.Host ++ " - " ++ err.Error),
           .writeHeader rw StatusForbidden]
      | some (_, none) => p.serveLoop rw req ips

/-- Go `Plugin.ServeHTTP`: the calls it makes for one request. -/
def Plugin.ServeHTTP (p : Plugin) (ord : MapOrder) (rw : ResponseWriter) (req : Request) :
    List Effect :=
  if !p.enabled then p.callNext rw req
  else .getRemoteIPs req :: p.serveLoop rw req (p.GetRemoteIPs ord req)

/-! ## Observations on a trace -/

/-- The status codes written, with the writer they were written to. -/
def statusWrites : List Effect → List (ResponseWriter × Nat)
  | [] => []
  | .writeHeader rw code :: es => (rw, code) :: statusWrites es
  | _ :: es => statusWrites es

/-- The invocations of the downstream handler, with their arguments. -/
def nextCalls : List Effect → List (Handler × ResponseWriter × Request)
  | [] => []
  | .next h rw req :: es => (h, rw, req) :: nextCalls es
  | _ :: es => nextCalls es

/-- The IPs the database was queried for. -/
def lookups : List Effect → List String
  | [] => []
  | .dbGet ip :: es => ip :: lookups es
  | _ :: es => lookups es

/-- The database files `New` tried to open. -/
def opened : List Effect → List String
  | [] => []
  | .openDB path :: es => path :: opened es
  | _ :: es => opened es

/-- The candidate extractions performed. -/
def extractions : List Effect → List Request
  | [] => []
  | .getRemoteIPs req :: es => req :: extractions es
  | _ :: es => extractions es

/-! ## Concrete instances -/

/-- A small database: one address in the US, one private, one the library calls
invalid, one whose query fails, every other address in Poland. -/
def sampleDB : DB :=
  ⟨fun ip =>
    if ip = "1.1.1.1" then (⟨"US"⟩, none)
    else if ip = "192.168.178.66" then (⟨"-"⟩, none)
    else if ip = "not-an-ip" then (⟨"Invalid IP address."⟩, none)
    else if ip = "io-failure" then (⟨""⟩, some (.plain "read failed"))
    else (⟨"PL"⟩, none)⟩

/-- An `OpenDB` that finds every file except `missing.bin`. -/
def sampleOpenDB (path : String) : Option DB × Option GoError :=
  if path = "missing.bin" then (none, some (.plain "open missing.bin: no such file"))
  else (some sampleDB, none)

/-- The downstream handler of the samples. -/
def sampleNext : Handler := ⟨1⟩

/-- An enabled plugin that admits the US only and rejects private addresses. -/
def pluginAllowUS : Plugin :=
  { next := some sampleNext, name := "geoblock", db := some sampleDB, enabled := true,
    allowedCountries := ["US"] }

/-- An enabled plugin that rejects Poland only and admits private addresses. -/
def pluginDenyPL : Plugin :=
  { next := some sampleNext, name := "geoblock", db := some sampleDB, enabled := true,
    allowPrivate := true, disallowedCountries := ["PL"] }

/-- The map order that yields the keys as they were inserted. -/
def orderInserted : MapOrder := ⟨id, fun keys => List.Perm.refl keys⟩

/-- The map order that yields the keys last inserted first. -/
def orderReversed : MapOrder := ⟨List.reverse, fun keys => List.reverse_perm keys⟩

/-- A request forwarded for a US address and a Polish one. -/
def reqUSThenPL : Request :=
  ⟨"example.org", [("X-Forwarded-For", ["1.1.1.1, 5.5.5.5"])]⟩

/-- A request forwarded for a US address with a malformed real-IP header. -/
def reqUSAndMalformed : Request :=
  ⟨"example.org", [("X-Forwarded-For", ["1.1.1.1"]), ("X-Real-Ip", ["not-an-ip"])]⟩

/-- A request naming the same US address in both headers, and a private one. -/
def reqUSAndPrivate : Request :=
  ⟨"example.org", [("X-Forwarded-For", [" 1.1.1.1 ,,192.168.178.66"]), ("X-Real-Ip", ["1.1.1.1"])]⟩

/-- A request whose forwarding headers hold only commas and white space. -/
def reqBlankHeaders : Request :=
  ⟨"example.org", [("X-Forwarded-For", [" , ,\t"]), ("X-Real-Ip", [" "]), ("Accept", ["*/*"])]⟩

/-- A response writer. -/
def sampleRW : ResponseWriter := ⟨7⟩

/-- The configuration of the test `Allowed`: enabled, the US only. -/
def cfgAllowUS : Config :=
  { DatabaseFilePath := "IP2LOCATION-LITE-DB1.IPV6.BIN", AllowedCountries := ["US"],
    Enabled := true }

/-- The configuration of the test `DisallowedCountries`, with private addresses admitted. -/
def cfgDenyPL : Config :=
  { DatabaseFilePath := "IP2LOCATION-LITE-DB1.IPV6.BIN", DisallowedCountries := ["PL"],
    Enabled := true, AllowPrivate := true }

/-- A configuration with both country lists. -/
def cfgBothLists : Config :=
  { DatabaseFilePath := "IP2LOCATION-LITE-DB1.IPV6.BIN", AllowedCountries := ["US"],
    DisallowedCountries := ["PL"], Enabled := true }

/-- The configuration of the test `NoDatabaseFilePath`: enabled, nothing else set. -/
def cfgNoPath : Config := { Enabled := true }

/-- An enabled plugin in the state with both lists: the US and Poland allowed,
Poland denied. -/
def pluginBothLists : Plugin :=
  { next := some sampleNext, name := "geoblock", db := some sampleDB, enabled := true,
    allowedCountries := ["US", "PL"], disallowedCountries := ["PL"] }

/-- An enabled plugin without country lists that rejects private addresses. -/
def pluginNoLists : Plugin :=
  { next := some sampleNext, name := "geoblock", db := some sampleDB, enabled := true }

/-- A request with the candidates of `reqUSThenPL` spread over both headers, in
another order and for another host. -/
def reqPLThenUS : Request :=
  ⟨"example.net", [("X-Real-Ip", ["5.5.5.5 , 1.1.1.1"]), ("X-Forwarded-For", ["5.5.5.5"]),
    ("User-Agent", ["curl"])]⟩

/-- A request that carries two values for each forwarding header; the Polish
address is in the second values only. -/
def reqTwoValues : Request :=
  ⟨"example.org", [("X-Forwarded-For", ["1.1.1.1", "5.5.5.5"]),
    ("X-Real-Ip", ["1.1.1.1", "5.5.5.5"])]⟩

/-- The request `reqTwoValues` cut down to the first value of each header. -/
def reqFirstValues : Request :=
  ⟨"example.org", [("X-Forwarded-For", ["1.1.1.1"]), ("X-Real-Ip", ["1.1.1.1"])]⟩

/-! ## Auxiliary facts -/

theorem rangeFinds_eq_true_iff (country : String) (cs : List String) :
    rangeFinds country cs = true ↔ country ∈ cs := by
  induction cs with
  | nil => simp [rangeFinds]
  | cons c cs ih =>
    by_cases h : c = country
    · simp [rangeFinds, h]
    · have h2 : ¬ country = c := fun e => h e.symm
      simp [rangeFinds, h, h2, ih]

theorem length_pos_iff_ne_nil (l : List String) : l.length > 0 ↔ l ≠ [] := by
  cases l <;> simp

/-- The result of `Lookup` in terms of the database answer. -/
theorem lookup_of_db (p : Plugin) (db : DB) (ip : String) (hdb : p.db = some db) :
    p.Lookup ip =
      match db.Get_country_short ip with
      | (_, some err) => some ("", some err)
      | (record, none) =>
        if HasPrefix (ToLower record.Country_short) "invalid" then
          some ("", some (.plain record.Country_short))
        else some (record.Country_short, none) := by
  simp only [Plugin.Lookup, hdb]

theorem db_of_lookup (p : Plugin) (ip : String) (r : String × Option GoError)
    (h : p.Lookup ip = some r) : ∃ db, p.db = some db := by
  cases hdb : p.db with
  | none => simp [Plugin.Lookup, hdb] at h
  | some db => exact ⟨db, rfl⟩

theorem lookup_ne_none (p : Plugin) (db : DB) (ip : String) (hdb : p.db = some db) :
    p.Lookup ip ≠ none := by
  rw [lookup_of_db p db ip hdb]
  rcases db.Get_country_short ip with ⟨record, _ | err⟩
  · by_cases h : HasPrefix (ToLower record.Country_short) "invalid" = true <;> simp [h]
  · simp

theorem checkAllowed_ne_none (p : Plugin) (db : DB) (ip : String) (hdb : p.db = some db) :
    p.CheckAllowed ip ≠ none := by
  have h := lookup_ne_none p db ip hdb
  unfold Plugin.CheckAllowed
  rcases hl : p.Lookup ip with _ | ⟨country, _ | err⟩
  · exact absurd hl h
  · simp only
    split_ifs <;> simp
  · simp

/-- A failed lookup is handed on by `CheckAllowed` as a wrapped error. -/
theorem checkAllowed_of_lookup_err (p : Plugin) (ip c : String) (err : GoError)
    (h : p.Lookup ip = some (c, some err)) :
    p.CheckAllowed ip =
      some ("", some (.wrap ("lookup of " ++ ip ++ " failed: " ++ err.Error) err)) := by
  simp [Plugin.CheckAllowed, h]

/-- The policy `CheckAllowed` applies to a private address. -/
theorem checkAllowed_private (p : Plugin) (ip : String) (h : p.Lookup ip = some ("-", none)) :
    p.CheckAllowed ip = some ("-", if p.allowPrivate then none else some .ErrNotAllowed) := by
  by_cases hp : p.allowPrivate = true <;> simp [Plugin.CheckAllowed, h, hp]

/-- The policy `CheckAllowed` applies to a resolved country: both list tests, one
after the other. -/
theorem checkAllowed_country (p : Plugin) (ip C : String)
    (h : p.Lookup ip = some (C, none)) (hC : C ≠ "-") :
    p.CheckAllowed ip =
      some (C, if (p.allowedCountries ≠ [] ∧ C ∉ p.allowedCountries) ∨
                  (p.disallowedCountries ≠ [] ∧ C ∈ p.disallowedCountries)
               then some .ErrNotAllowed else none) := by
  have ha : rangeFinds C p.allowedCountries = true ↔ C ∈ p.allowedCountries :=
    rangeFinds_eq_true_iff C p.allowedCountries
  have hd : rangeFinds C p.disallowedCountries = true ↔ C ∈ p.disallowedCountries :=
    rangeFinds_eq_true_iff C p.disallowedCountries
  simp only [Plugin.CheckAllowed, h, hC, if_false, length_pos_iff_ne_nil]
  by_cases h1 : p.allowedCountries ≠ [] ∧ C ∉ p.allowedCountries
  · have h1' : p.allowedCountries ≠ [] ∧ (!rangeFinds C p.allowedCountries) = true := by
      refine ⟨h1.1, ?_⟩
      cases hr : rangeFinds C p.allowedCountries
      · rfl
      · exact absurd (ha.mp hr) h1.2
    simp [h1, h1']
  · have h1' : ¬ (p.allowedCountries ≠ [] ∧ (!rangeFinds C p.allowedCountries) = true) := by
      rintro ⟨hne, hr⟩
      apply h1
      refine ⟨hne, fun hm => ?_⟩
      rw [ha.mpr hm] at hr
      exact absurd hr (by decide)
    by_cases h2 : p.disallowedCountries ≠ [] ∧ C ∈ p.disallowedCountries
    · have h2' : p.disallowedCountries ≠ [] ∧ rangeFinds C p.disallowedCountries = true :=
        ⟨h2.1, hd.mpr h2.2⟩
      rw [if_neg h1', if_pos h2', if_pos (Or.inr h2)]
    · have h2' : ¬ (p.disallowedCountries ≠ [] ∧ rangeFinds C p.disallowedCountries = true) :=
        fun hh => h2 ⟨hh.1, hd.mp hh.2⟩
      rw [if_neg h1', if_neg h2', if_neg (by tauto)]

/-- Every plugin `New` returns has at most one country list. -/
theorem new_lists_exclusive (OpenDB : String → Option DB × Option GoError)
    (next : Option Handler) (cfg : Option Config) (name : String) (p : Plugin)
    (h : (New OpenDB () next cfg name).handler = some p) :
    p.allowedCountries = [] ∨ p.disallowedCountries = [] := by
  unfold New at h
  rcases next with _ | nx
  · simp at h
  rcases cfg with _ | cfg
  · simp at h
  simp only at h
  split_ifs at h with h1 h2 h3
  · simp only [Option.some.injEq] at h
    subst h
    exact Or.inl rfl
  · rcases ho : OpenDB cfg.DatabaseFilePath with ⟨db, _ | err⟩
    · rw [ho] at h
      simp only [Option.some.injEq] at h
      subst h
      simp only [length_pos_iff_ne_nil] at h1
      simp only
      by_cases ha : cfg.AllowedCountries = []
      · exact Or.inl ha
      · right
        by_contra hd
        exact h1 ⟨hd, ha⟩
    · rw [ho] at h
      simp at h

/-- The loop of `ServeHTTP` on a list that holds a candidate `CheckAllowed` rejects:
one `403` is written, the downstream handler is not called, nothing panics. -/
theorem serveLoop_reject (p : Plugin) (db : DB) (rw : ResponseWriter) (req : Request)
    (hdb : p.db = some db) :
    ∀ ips : List String,
      (∃ ip ∈ ips, ∃ c e, p.CheckAllowed ip = some (c, some e)) →
      statusWrites (p.serveLoop rw req ips) = [(rw, StatusForbidden)] ∧
      nextCalls (p.serveLoop rw req ips) = [] ∧
      Effect.panic ∉ p.serveLoop rw req ips := by
  intro ips
  induction ips with
  | nil =>
    rintro ⟨ip, hmem, _⟩
    simp at hmem
  | cons ip ips ih =>
    rintro ⟨ip1, hmem, c1, e1, h1⟩
    rcases hc : p.CheckAllowed ip with _ | ⟨c, _ | e⟩
    · exact absurd hc (checkAllowed_ne_none p db ip hdb)
    · have htail : ∃ ip2 ∈ ips, ∃ c e, p.CheckAllowed ip2 = some (c, some e) := by
        rcases List.mem_cons.mp hmem with heq | hin
        · subst heq
          rw [hc] at h1
          simp at h1
        · exact ⟨ip1, hin, c1, e1, h1⟩
      obtain ⟨ih1, ih2, ih3⟩ := ih htail
      simp only [Plugin.serveLoop, hc, statusWrites, nextCalls]
      refine ⟨ih1, ih2, ?_⟩
      simpa using ih3
    · simp only [Plugin.serveLoop, hc]
      by_cases hi : errorsIs e .ErrNotAllowed = true
      · simp [hi, statusWrites, nextCalls]
      · simp [hi, statusWrites, nextCalls]

/-- The loop of `ServeHTTP` on a list all of whose candidates pass: one database
query per candidate, then the call of the downstream handler. -/
theorem serveLoop_pass (p : Plugin) (rw : ResponseWriter) (req : Request) :
    ∀ ips : List String,
      (∀ ip ∈ ips, ∃ c, p.CheckAllowed ip = some (c, none)) →
      p.serveLoop rw req ips = ips.map Effect.dbGet ++ p.callNext rw req := by
  intro ips
  induction ips with
  | nil => intro _; rfl
  | cons ip ips ih =>
    intro hall
    obtain ⟨c, hc⟩ := hall ip (List.mem_cons_self ip ips)
    have htail : ∀ ip2 ∈ ips, ∃ c, p.CheckAllowed ip2 = some (c, none) :=
      fun ip2 h2 => hall ip2 (List.mem_cons_of_mem ip h2)
    simp only [Plugin.serveLoop, hc, ih htail, List.map_cons, List.cons_append]

theorem statusWrites_dbGets (ips : List String) (es : List Effect) :
    statusWrites (ips.map Effect.dbGet ++ es) = statusWrites es := by
  induction ips with
  | nil => rfl
  | cons ip ips ih => simpa [statusWrites] using ih

theorem nextCalls_dbGets (ips : List String) (es : List Effect) :
    nextCalls (ips.map Effect.dbGet ++ es) = nextCalls es := by
  induction ips with
  | nil => rfl
  | cons ip ips ih => simpa [nextCalls] using ih

theorem mem_splitChars (sep : Char) :
    ∀ (cs piece : List Char), piece ∈ splitChars sep cs → ∀ c ∈ piece, c ∈ cs ∧ c ≠ sep := by
  intro cs
  induction cs with
  | nil =>
    intro piece hp c hc
    simp only [splitChars, List.mem_singleton] at hp
    subst hp
    simp at hc
  | cons c0 cs ih =>
    intro piece hp c hc
    by_cases h0 : c0 = sep
    · simp only [splitChars, h0, if_true, List.mem_cons] at hp
      rcases hp with hp | hp
      · subst hp
        simp at hc
      · obtain ⟨h1, h2⟩ := ih piece hp c hc
        exact ⟨List.mem_cons_of_mem _ h1, h2⟩
    · simp only [splitChars, h0, if_false] at hp
      rcases hs : splitChars sep cs with _ | ⟨q, qs⟩
      · rw [hs] at hp
        simp only [List.mem_singleton] at hp
        subst hp
        simp only [List.mem_singleton] at hc
        subst hc
        exact ⟨List.mem_cons_self _ _, h0⟩
      · rw [hs] at hp
        simp only [List.mem_cons] at hp
        rcases hp with hp | hp
        · subst hp
          rcases List.mem_cons.mp hc with hc | hc
          · subst hc
            exact ⟨List.mem_cons_self _ _, h0⟩
          · obtain ⟨h1, h2⟩ := ih q (by rw [hs]; exact List.mem_cons_self _ _) c hc
            exact ⟨List.mem_cons_of_mem _ h1, h2⟩
        · obtain ⟨h1, h2⟩ := ih piece (by rw [hs]; exact List.mem_cons_of_mem _ hp) c hc
          exact ⟨List.mem_cons_of_mem _ h1, h2⟩

theorem trimSpace_of_spaces (s : String) (h : ∀ c ∈ s.data, isSpace c = true) :
    TrimSpace s = "" := by
  have h1 : s.data.dropWhile isSpace = [] := List.dropWhile_eq_nil_iff.mpr h
  simp only [TrimSpace, h1]
  rfl

theorem collectIPs_of_blank (ipMap : List String) :
    ∀ pieces : List String, (∀ piece ∈ pieces, TrimSpace piece = "") →
      collectIPs ipMap pieces = ipMap := by
  intro pieces
  induction pieces with
  | nil => intro _; rfl
  | cons piece pieces ih =>
    intro h
    have h1 := h piece (List.mem_cons_self _ _)
    simp only [collectIPs, h1, if_true]
    exact ih (fun q hq => h q (List.mem_cons_of_mem _ hq))

/-- A header value made of commas and white space adds no key to the map. -/
theorem collectIPs_split_blank (ipMap : List String) (v : String)
    (h : ∀ c ∈ v.data, c = ',' ∨ isSpace c = true) :
    collectIPs ipMap (Split v ',') = ipMap := by
  apply collectIPs_of_blank
  intro piece hp
  simp only [Split, List.mem_map] at hp
  obtain ⟨cs, hcs, rfl⟩ := hp
  apply trimSpace_of_spaces
  intro c hc
  obtain ⟨h1, h2⟩ := mem_splitChars ',' v.data cs hcs c hc
  rcases h c h1 with h3 | h3
  · exact absurd h3 h2
  · exact h3

theorem header_get_mem (h : Header) (key : String) :
    h.Get key = "" ∨ h.Get key ∈ h.Values key := by
  unfold Header.Get
  rcases hv : h.Values key with _ | ⟨v, vs⟩
  · exact Or.inl rfl
  · exact Or.inr (List.mem_cons_self _ _)

/-- Result of `New` on a configuration with both country lists. -/
theorem new_of_both_lists (OpenDB : String → Option DB × Option GoError) (nx : Handler)
    (cfg : Config) (name : String)
    (h : cfg.DisallowedCountries.length > 0 ∧ cfg.AllowedCountries.length > 0) :
    New OpenDB () (some nx) (some cfg) name =
      ⟨none,
        some (.plain "either allowed countries or disallowed countries could be set at once"),
        []⟩ := by
  simp only [New]
  rw [if_pos h]

/-- Result of `New` on a disabled configuration with at most one country list. -/
theorem new_of_disabled (OpenDB : String → Option DB × Option GoError) (nx : Handler)
    (cfg : Config) (name : String)
    (h : ¬ (cfg.DisallowedCountries.length > 0 ∧ cfg.AllowedCountries.length > 0))
    (hdis : cfg.Enabled = false) :
    New OpenDB () (some nx) (some cfg) name =
      ⟨some { next := some nx, name := name, db := none }, none,
        [.logPrintf (name ++ ": disabled")]⟩ := by
  simp only [New]
  rw [if_neg h, hdis]
  rfl

/-- Result of `New` on an enabled configuration with at most one country list and no path. -/
theorem new_of_no_path (OpenDB : String → Option DB × Option GoError) (nx : Handler)
    (cfg : Config) (name : String)
    (h : ¬ (cfg.DisallowedCountries.length > 0 ∧ cfg.AllowedCountries.length > 0))
    (hen : cfg.Enabled = true) (hpath : cfg.DatabaseFilePath = "") :
    New OpenDB () (some nx) (some cfg) name =
      ⟨none, some (.plain "no database file path defined"), []⟩ := by
  simp only [New]
  rw [if_neg h, hen, hpath]
  rfl

/-! ## The claims -/

/-- C1 (deny wins): for an enabled plugin, when some extracted candidate IP resolves
to a country and `CheckAllowed` answers `ErrNotAllowed` for it, `ServeHTTP` writes
`403 Forbidden` exactly once to the response writer, never calls the downstream
handler and does not panic, whatever the other candidates resolve to and in
whatever order the candidates are visited. -/
theorem C1_deny_wins (p : Plugin) (ord : MapOrder) (rw : ResponseWriter) (req : Request)
    (ip country : String)
    (hen : p.enabled = true)
    (hmem : ip ∈ p.GetRemoteIPs ord req)
    (hlook : p.Lookup ip = some (country, none))
    (hdeny : p.CheckAllowed ip = some (country, some .ErrNotAllowed)) :
    statusWrites (p.ServeHTTP ord rw req) = [(rw, StatusForbidden)] ∧
    nextCalls (p.ServeHTTP ord rw req) = [] ∧
    Effect.panic ∉ p.ServeHTTP ord rw req := by
  obtain ⟨db, hdb⟩ := db_of_lookup p ip _ hlook
  obtain ⟨h1, h2, h3⟩ := serveLoop_reject p db rw req hdb (p.GetRemoteIPs ord req)
    ⟨ip, hmem, country, .ErrNotAllowed, hdeny⟩
  simp only [Plugin.ServeHTTP, hen, Bool.not_true, Bool.false_eq_true, if_false, statusWrites,
    nextCalls]
  refine ⟨h1, h2, ?_⟩
  simpa using h3

/-- C1 at a request forwarded for a US and a Polish address, US-only policy, the
Polish address visited first. -/
theorem C1_deny_wins_witness :
    statusWrites (pluginAllowUS.ServeHTTP orderReversed sampleRW reqUSThenPL) =
      [(sampleRW, StatusForbidden)] ∧
    nextCalls (pluginAllowUS.ServeHTTP orderReversed sampleRW reqUSThenPL) = [] ∧
    Effect.panic ∉ pluginAllowUS.ServeHTTP orderReversed sampleRW reqUSThenPL :=
  C1_deny_wins pluginAllowUS orderReversed sampleRW reqUSThenPL "5.5.5.5" "PL"
    (by rfl) (by decide) (by decide) (by decide)

/-- C2 (fail closed): for an enabled plugin with database `db`, when the database
call fails for some extracted candidate IP, or the code it returns starts with
"invalid" once lower-cased, `Lookup` returns an error for that IP and `ServeHTTP`
writes `403 Forbidden` exactly once, never calls the downstream handler and does
not panic, whatever the outcome for the other candidates. -/
theorem C2_fail_closed (p : Plugin) (db : DB) (ord : MapOrder) (rw : ResponseWriter)
    (req : Request) (ip : String)
    (hen : p.enabled = true)
    (hdb : p.db = some db)
    (hmem : ip ∈ p.GetRemoteIPs ord req)
    (hfail : (db.Get_country_short ip).2 ≠ none ∨
      HasPrefix (ToLower (db.Get_country_short ip).1.Country_short) "invalid" = true) :
    (∃ err, p.Lookup ip = some ("", some err)) ∧
    statusWrites (p.ServeHTTP ord rw req) = [(rw, StatusForbidden)] ∧
    nextCalls (p.ServeHTTP ord rw req) = [] ∧
    Effect.panic ∉ p.ServeHTTP ord rw req := by
  have hl : ∃ err, p.Lookup ip = some ("", some err) := by
    rw [lookup_of_db p db ip hdb]
    rcases hg : db.Get_country_short ip with ⟨record, _ | e⟩
    · rw [hg] at hfail
      rcases hfail with hf | hf
      · exact absurd rfl hf
      · exact ⟨.plain record.Country_short, by simp only [hf, if_true]⟩
    · exact ⟨e, rfl⟩
  obtain ⟨err, herr⟩ := hl
  obtain ⟨h1, h2, h3⟩ := serveLoop_reject p db rw req hdb (p.GetRemoteIPs ord req)
    ⟨ip, hmem, _, _, checkAllowed_of_lookup_err p ip "" err herr⟩
  refine ⟨⟨err, herr⟩, ?_⟩
  simp only [Plugin.ServeHTTP, hen, Bool.not_true, Bool.false_eq_true, if_false, statusWrites,
    nextCalls]
  refine ⟨h1, h2, ?_⟩
  simpa using h3

/-- C2 at a request whose X-Real-Ip value the database calls invalid, next to an
admitted US address. -/
theorem C2_fail_closed_witness :
    (∃ err, pluginAllowUS.Lookup "not-an-ip" = some ("", some err)) ∧
    statusWrites (pluginAllowUS.ServeHTTP orderInserted sampleRW reqUSAndMalformed) =
      [(sampleRW, StatusForbidden)] ∧
    nextCalls (pluginAllowUS.ServeHTTP orderInserted sampleRW reqUSAndMalformed) = [] ∧
    Effect.panic ∉ pluginAllowUS.ServeHTTP orderInserted sampleRW reqUSAndMalformed :=
  C2_fail_closed pluginAllowUS sampleDB orderInserted sampleRW reqUSAndMalformed "not-an-ip"
    (by rfl) (by rfl) (by decide) (Or.inr (by decide))

/-- C3 (allow-list mode): for a plugin built by `New` with a non-empty allow list and
an IP whose lookup succeeds with a code `C` other than "-", `CheckAllowed` returns
`C` with a nil error when `C` is in the allow list and `C` with `ErrNotAllowed`
when it is not; so its error is nil iff `C` is in the allow list. -/
theorem C3_allow_list (OpenDB : String → Option DB × Option GoError)
    (next : Option Handler) (cfg : Option Config) (name : String) (p : Plugin)
    (ip C : String)
    (hnew : (New OpenDB () next cfg name).handler = some p)
    (hne : p.allowedCountries ≠ [])
    (hlook : p.Lookup ip = some (C, none))
    (hC : C ≠ "-") :
    (C ∈ p.allowedCountries → p.CheckAllowed ip = some (C, none)) ∧
    (C ∉ p.allowedCountries → p.CheckAllowed ip = some (C, some .ErrNotAllowed)) ∧
    ((∃ c, p.CheckAllowed ip = some (c, none)) ↔ C ∈ p.allowedCountries) := by
  have hd : p.disallowedCountries = [] := by
    rcases new_lists_exclusive OpenDB next cfg name p hnew with h | h
    · exact absurd h hne
    · exact h
  have hca := checkAllowed_country p ip C hlook hC
  simp only [hd, ne_eq, not_true_eq_false, false_and, or_false, hne, not_false_eq_true,
    true_and] at hca
  have hin : C ∈ p.allowedCountries → p.CheckAllowed ip = some (C, none) := by
    intro h
    rw [hca]
    simp [h]
  have hout : C ∉ p.allowedCountries → p.CheckAllowed ip = some (C, some .ErrNotAllowed) := by
    intro h
    rw [hca]
    simp [h]
  refine ⟨hin, hout, ?_, fun h => ⟨C, hin h⟩⟩
  rintro ⟨c, hc⟩
  by_contra hnot
  rw [hout hnot] at hc
  simp at hc

/-- C3 at the plugin `New` builds from the US-only configuration and a US address. -/
theorem C3_allow_list_witness :
    ("US" ∈ pluginAllowUS.allowedCountries →
      pluginAllowUS.CheckAllowed "1.1.1.1" = some ("US", none)) ∧
    ("US" ∉ pluginAllowUS.allowedCountries →
      pluginAllowUS.CheckAllowed "1.1.1.1" = some ("US", some .ErrNotAllowed)) ∧
    ((∃ c, pluginAllowUS.CheckAllowed "1.1.1.1" = some (c, none)) ↔
      "US" ∈ pluginAllowUS.allowedCountries) :=
  C3_allow_list sampleOpenDB (some sampleNext) (some cfgAllowUS) "geoblock" pluginAllowUS
    "1.1.1.1" "US" (by rfl) (by decide) (by decide) (by decide)

/-- C4 (deny-list mode): for a plugin built by `New` with a non-empty deny list and
an IP whose lookup succeeds with a code `C` other than "-", `CheckAllowed` returns
`C` with a nil error when `C` is not in the deny list and `C` with `ErrNotAllowed`
when it is; so its error is nil iff `C` is not in the deny list. -/
theorem C4_deny_list (OpenDB : String → Option DB × Option GoError)
    (next : Option Handler) (cfg : Option Config) (name : String) (p : Plugin)
    (ip C : String)
    (hnew : (New OpenDB () next cfg name).handler = some p)
    (hne : p.disallowedCountries ≠ [])
    (hlook : p.Lookup ip = some (C, none))
    (hC : C ≠ "-") :
    (C ∉ p.disallowedCountries → p.CheckAllowed ip = some (C, none)) ∧
    (C ∈ p.disallowedCountries → p.CheckAllowed ip = some (C, some .ErrNotAllowed)) ∧
    ((∃ c, p.CheckAllowed ip = some (c, none)) ↔ C ∉ p.disallowedCountries) := by
  have ha : p.allowedCountries = [] := by
    rcases new_lists_exclusive OpenDB next cfg name p hnew with h | h
    · exact h
    · exact absurd h hne
  have hca := checkAllowed_country p ip C hlook hC
  simp only [ha, ne_eq, not_true_eq_false, false_and, false_or, hne, not_false_eq_true,
    true_and] at hca
  have hout : C ∉ p.disallowedCountries → p.CheckAllowed ip = some (C, none) := by
    intro h
    rw [hca]
    simp [h]
  have hin : C ∈ p.disallowedCountries →
      p.CheckAllowed ip = some (C, some .ErrNotAllowed) := by
    intro h
    rw [hca]
    simp [h]
  refine ⟨hout, hin, ?_, fun h => ⟨C, hout h⟩⟩
  rintro ⟨c, hc⟩ hmem
  rw [hin hmem] at hc
  simp at hc

/-- C4 at the plugin `New` builds from the Poland-denying configuration and a
Polish address. -/
theorem C4_deny_list_witness :
    ("PL" ∉ pluginDenyPL.disallowedCountries →
      pluginDenyPL.CheckAllowed "5.5.5.5" = some ("PL", none)) ∧
    ("PL" ∈ pluginDenyPL.disallowedCountries →
      pluginDenyPL.CheckAllowed "5.5.5.5" = some ("PL", some .ErrNotAllowed)) ∧
    ((∃ c, pluginDenyPL.CheckAllowed "5.5.5.5" = some (c, none)) ↔
      "PL" ∉ pluginDenyPL.disallowedCountries) :=
  C4_deny_list sampleOpenDB (some sampleNext) (some cfgDenyPL) "geoblock" pluginDenyPL
    "5.5.5.5" "PL" (by rfl) (by decide) (by decide) (by decide)

/-- C5 (private-address precedence): for every plugin state and every IP whose
lookup returns the private marker "-", `CheckAllowed` returns "-" with a nil error
when `allowPrivate` is true and "-" with `ErrNotAllowed` when it is false, and the
answer is the same whatever the two country lists are replaced with. -/
theorem C5_private_precedence (p : Plugin) (ip : String)
    (hlook : p.Lookup ip = some ("-", none)) :
    (p.allowPrivate = true → p.CheckAllowed ip = some ("-", none)) ∧
    (p.allowPrivate = false → p.CheckAllowed ip = some ("-", some .ErrNotAllowed)) ∧
    ((∃ c, p.CheckAllowed ip = some (c, none)) ↔ p.allowPrivate = true) ∧
    (p.CheckAllowed ip = some ("-", some .ErrNotAllowed) ↔ p.allowPrivate = false) ∧
    (∀ allowed disallowed : List String,
      Plugin.CheckAllowed
        { p with allowedCountries := allowed, disallowedCountries := disallowed } ip =
        p.CheckAllowed ip) := by
  have h := checkAllowed_private p ip hlook
  have hlists : ∀ allowed disallowed : List String,
      Plugin.CheckAllowed
        { p with allowedCountries := allowed, disallowedCountries := disallowed } ip =
        p.CheckAllowed ip := by
    intro allowed disallowed
    rw [h]
    exact checkAllowed_private _ ip (by simpa [Plugin.Lookup] using hlook)
  refine ⟨?_, ?_, ?_, ?_, hlists⟩
  · intro hp
    simp [h, hp]
  · intro hp
    simp [h, hp]
  · rw [h]
    cases p.allowPrivate <;> simp
  · rw [h]
    cases p.allowPrivate <;> simp

/-- C5 at a private address and a plugin that rejects private addresses. -/
theorem C5_private_precedence_witness :
    pluginAllowUS.CheckAllowed "192.168.178.66" = some ("-", some .ErrNotAllowed) :=
  (C5_private_precedence pluginAllowUS "192.168.178.66" (by decide)).2.1 (by rfl)

/-- C6 (aggregate allow): for an enabled plugin with downstream handler `next`, when
`CheckAllowed` returns a nil error for every extracted candidate IP, `ServeHTTP`
extracts the candidates, queries the database once per candidate and then calls
`next` exactly once, with the response writer and the request it received; it
writes no status code and does not panic. -/
theorem C6_aggregate_allow (p : Plugin) (next : Handler) (ord : MapOrder)
    (rw : ResponseWriter) (req : Request)
    (hen : p.enabled = true)
    (hnext : p.next = some next)
    (hall : ∀ ip ∈ p.GetRemoteIPs ord req, ∃ c, p.CheckAllowed ip = some (c, none)) :
    p.ServeHTTP ord rw req =
      Effect.getRemoteIPs req ::
        ((p.GetRemoteIPs ord req).map Effect.dbGet ++ [Effect.next next rw req]) ∧
    nextCalls (p.ServeHTTP ord rw req) = [(next, rw, req)] ∧
    statusWrites (p.ServeHTTP ord rw req) = [] ∧
    Effect.panic ∉ p.ServeHTTP ord rw req := by
  have hs : p.ServeHTTP ord rw req =
      Effect.getRemoteIPs req ::
        ((p.GetRemoteIPs ord req).map Effect.dbGet ++ [Effect.next next rw req]) := by
    simp only [Plugin.ServeHTTP, hen, Bool.not_true, Bool.false_eq_true, if_false]
    rw [serveLoop_pass p rw req _ hall]
    simp only [Plugin.callNext, hnext]
  refine ⟨hs, ?_, ?_, ?_⟩
  · rw [hs]
    simp only [nextCalls, nextCalls_dbGets]
  · rw [hs]
    simp only [statusWrites, statusWrites_dbGets]
  · rw [hs]
    simp

/-- C6 at a request naming a US address twice and a private address, under a
policy that rejects Poland only and admits private addresses. -/
theorem C6_aggregate_allow_witness :
    pluginDenyPL.ServeHTTP orderInserted sampleRW reqUSAndPrivate =
      [Effect.getRemoteIPs reqUSAndPrivate, Effect.dbGet "1.1.1.1",
       Effect.dbGet "192.168.178.66", Effect.next sampleNext sampleRW reqUSAndPrivate] :=
  (C6_aggregate_allow pluginDenyPL sampleNext orderInserted sampleRW reqUSAndPrivate
    (by rfl) (by rfl)
    (by
      intro ip hip
      have hl : pluginDenyPL.GetRemoteIPs orderInserted reqUSAndPrivate =
          ["1.1.1.1", "192.168.178.66"] := by decide
      rw [hl] at hip
      simp only [List.mem_cons, List.mem_singleton, List.not_mem_nil, or_false] at hip
      rcases hip with h | h
      · exact ⟨"US", by rw [h]; decide⟩
      · exact ⟨"-", by rw [h]; decide⟩)).1.trans (by decide)

/-- C7 (no identifiable client): for an enabled plugin with downstream handler
`next`, whatever its policy, when every value the request carries for
X-Forwarded-For and for X-Real-IP (there may be none) consists only of commas and
white space, `GetRemoteIPs` returns the empty list and `ServeHTTP` calls `next`
once with the same writer and request, with no database query and no status
written. -/
theorem C7_no_candidates (p : Plugin) (next : Handler) (ord : MapOrder)
    (rw : ResponseWriter) (req : Request)
    (hen : p.enabled = true)
    (hnext : p.next = some next)
    (hxff : ∀ v ∈ req.Header.Values "X-Forwarded-For", ∀ c ∈ v.data,
      c = ',' ∨ isSpace c = true)
    (hxri : ∀ v ∈ req.Header.Values "X-Real-IP", ∀ c ∈ v.data,
      c = ',' ∨ isSpace c = true) :
    p.GetRemoteIPs ord req = [] ∧
    p.ServeHTTP ord rw req = [Effect.getRemoteIPs req, Effect.next next rw req] ∧
    lookups (p.ServeHTTP ord rw req) = [] ∧
    statusWrites (p.ServeHTTP ord rw req) = [] ∧
    nextCalls (p.ServeHTTP ord rw req) = [(next, rw, req)] := by
  have k1 : req.Header.Values "x-forwarded-for" = req.Header.Values "X-Forwarded-For" := by
    unfold Header.Values
    rw [show CanonicalMIMEHeaderKey "x-forwarded-for" =
      CanonicalMIMEHeaderKey "X-Forwarded-For" by decide]
  have k2 : req.Header.Values "x-real-ip" = req.Header.Values "X-Real-IP" := by
    unfold Header.Values
    rw [show CanonicalMIMEHeaderKey "x-real-ip" = CanonicalMIMEHeaderKey "X-Real-IP" by decide]
  have b1 : ∀ c ∈ (req.Header.Get "x-forwarded-for").data, c = ',' ∨ isSpace c = true := by
    rcases header_get_mem req.Header "x-forwarded-for" with h | h
    · rw [h]
      intro c hc
      simp at hc
    · exact hxff _ (k1 ▸ h)
  have b2 : ∀ c ∈ (req.Header.Get "x-real-ip").data, c = ',' ∨ isSpace c = true := by
    rcases header_get_mem req.Header "x-real-ip" with h | h
    · rw [h]
      intro c hc
      simp at hc
    · exact hxri _ (k2 ▸ h)
  have hmap : remoteIPMap req = [] := by
    simp only [remoteIPMap, collectIPs_split_blank _ _ b1, collectIPs_split_blank _ _ b2,
      ite_self]
  have hips : p.GetRemoteIPs ord req = [] := by
    have hp := ord.perm (remoteIPMap req)
    rw [hmap] at hp
    unfold Plugin.GetRemoteIPs
    rw [hmap]
    exact List.Perm.eq_nil hp
  have hs : p.ServeHTTP ord rw req = [Effect.getRemoteIPs req, Effect.next next rw req] := by
    simp only [Plugin.ServeHTTP, hen, Bool.not_true, Bool.false_eq_true, if_false, hips,
      Plugin.serveLoop, Plugin.callNext, hnext]
  refine ⟨hips, hs, ?_, ?_, ?_⟩ <;> rw [hs] <;> rfl

/-- C7 at a request whose forwarding headers hold only commas, blanks and a tab,
under a policy that admits the US only and rejects private addresses. -/
theorem C7_no_candidates_witness :
    pluginAllowUS.GetRemoteIPs orderReversed reqBlankHeaders = [] ∧
    pluginAllowUS.ServeHTTP orderReversed sampleRW reqBlankHeaders =
      [Effect.getRemoteIPs reqBlankHeaders, Effect.next sampleNext sampleRW reqBlankHeaders] ∧
    lookups (pluginAllowUS.ServeHTTP orderReversed sampleRW reqBlankHeaders) = [] ∧
    statusWrites (pluginAllowUS.ServeHTTP orderReversed sampleRW reqBlankHeaders) = [] ∧
    nextCalls (pluginAllowUS.ServeHTTP orderReversed sampleRW reqBlankHeaders) =
      [(sampleNext, sampleRW, reqBlankHeaders)] :=
  C7_no_candidates pluginAllowUS sampleNext orderReversed sampleRW reqBlankHeaders
    (by rfl) (by rfl) (by decide) (by decide)

/-- C8 (disabled pass-through): for a config with `Enabled = false`, a non-nil next
handler and not both country lists non-empty, `New` returns a plugin and a nil error
without opening a database, whatever `DatabaseFilePath` is, and for every request
the plugin's `ServeHTTP` makes exactly one call: the downstream handler with the
writer and request it received. No candidates are extracted and no lookup is made. -/
theorem C8_disabled_pass_through (OpenDB : String → Option DB × Option GoError)
    (next : Handler) (cfg : Config) (name : String)
    (hdis : cfg.Enabled = false)
    (hlists : ¬ (cfg.AllowedCountries ≠ [] ∧ cfg.DisallowedCountries ≠ [])) :
    ∃ p : Plugin,
      (New OpenDB () (some next) (some cfg) name).handler = some p ∧
      (New OpenDB () (some next) (some cfg) name).err = none ∧
      opened (New OpenDB () (some next) (some cfg) name).effects = [] ∧
      ∀ (ord : MapOrder) (rw : ResponseWriter) (req : Request),
        p.ServeHTTP ord rw req = [Effect.next next rw req] ∧
        nextCalls (p.ServeHTTP ord rw req) = [(next, rw, req)] ∧
        extractions (p.ServeHTTP ord rw req) = [] ∧
        lookups (p.ServeHTTP ord rw req) = [] := by
  have h1 : ¬ (cfg.DisallowedCountries.length > 0 ∧ cfg.AllowedCountries.length > 0) := by
    simp only [length_pos_iff_ne_nil]
    exact fun h => hlists ⟨h.2, h.1⟩
  refine ⟨{ next := some next, name := name, db := none }, ?_, ?_, ?_, ?_⟩
  · rw [new_of_disabled OpenDB next cfg name h1 hdis]
  · rw [new_of_disabled OpenDB next cfg name h1 hdis]
  · rw [new_of_disabled OpenDB next cfg name h1 hdis]
    rfl
  · intro ord rw req
    refine ⟨rfl, rfl, rfl, rfl⟩

/-- C8 at the zero configuration (the test `Disabled`): no path, no lists. -/
theorem C8_disabled_pass_through_witness :
    ∃ p : Plugin,
      (New sampleOpenDB () (some sampleNext) (some CreateConfig) "geoblock").handler = some p ∧
      (New sampleOpenDB () (some sampleNext) (some CreateConfig) "geoblock").err = none ∧
      opened (New sampleOpenDB () (some sampleNext) (some CreateConfig) "geoblock").effects
        = [] ∧
      ∀ (ord : MapOrder) (rw : ResponseWriter) (req : Request),
        p.ServeHTTP ord rw req = [Effect.next sampleNext rw req] ∧
        nextCalls (p.ServeHTTP ord rw req) = [(sampleNext, rw, req)] ∧
        extractions (p.ServeHTTP ord rw req) = [] ∧
        lookups (p.ServeHTTP ord rw req) = [] :=
  C8_disabled_pass_through sampleOpenDB sampleNext CreateConfig "geoblock" (by rfl) (by decide)

/-- C9 (mutually exclusive lists): for a config whose allow list and deny list are
both non-empty, `New` returns a nil handler and a non-nil error and opens no
database, whatever the next handler, `Enabled`, `AllowPrivate` and
`DatabaseFilePath` are; and every plugin `New` returns, from any arguments, has
at most one of its two country lists non-empty. -/
theorem C9_lists_exclusive (OpenDB : String → Option DB × Option GoError)
    (next : Option Handler) (cfg : Config) (name : String)
    (hboth : cfg.AllowedCountries ≠ [] ∧ cfg.DisallowedCountries ≠ []) :
    (New OpenDB () next (some cfg) name).handler = none ∧
    (∃ err, (New OpenDB () next (some cfg) name).err = some err) ∧
    opened (New OpenDB () next (some cfg) name).effects = [] ∧
    ∀ (OpenDB2 : String → Option DB × Option GoError) (next2 : Option Handler)
      (cfg2 : Option Config) (name2 : String) (p : Plugin),
      (New OpenDB2 () next2 cfg2 name2).handler = some p →
      p.allowedCountries = [] ∨ p.disallowedCountries = [] := by
  have h1 : cfg.DisallowedCountries.length > 0 ∧ cfg.AllowedCountries.length > 0 := by
    simp only [length_pos_iff_ne_nil]
    exact ⟨hboth.2, hboth.1⟩
  refine ⟨?_, ?_, ?_, fun O n c m p h => new_lists_exclusive O n c m p h⟩
  · rcases next with _ | nx
    · rfl
    · rw [new_of_both_lists OpenDB nx cfg name h1]
  · rcases next with _ | nx
    · exact ⟨_, rfl⟩
    · rw [new_of_both_lists OpenDB nx cfg name h1]
      exact ⟨_, rfl⟩
  · rcases next with _ | nx
    · rfl
    · rw [new_of_both_lists OpenDB nx cfg name h1]
      rfl

/-- C9 at a configuration that allows the US and denies Poland. -/
theorem C9_lists_exclusive_witness :
    (New sampleOpenDB () (some sampleNext) (some cfgBothLists) "geoblock").handler = none ∧
    (∃ err, (New sampleOpenDB () (some sampleNext) (some cfgBothLists) "geoblock").err
      = some err) :=
  have h := C9_lists_exclusive sampleOpenDB (some sampleNext) cfgBothLists "geoblock"
    (by decide)
  ⟨h.1, h.2.1⟩

/-- C10 (missing database path): for a config with `Enabled = true` and an empty
`DatabaseFilePath`, `New` returns a nil handler and a non-nil error and never
calls `OpenDB`, whatever the next handler, the country lists and `AllowPrivate`
are. -/
theorem C10_missing_database_path (OpenDB : String → Option DB × Option GoError)
    (next : Option Handler) (cfg : Config) (name : String)
    (hen : cfg.Enabled = true)
    (hpath : cfg.DatabaseFilePath = "") :
    (New OpenDB () next (some cfg) name).handler = none ∧
    (∃ err, (New OpenDB () next (some cfg) name).err = some err) ∧
    opened (New OpenDB () next (some cfg) name).effects = [] := by
  rcases next with _ | nx
  · exact ⟨rfl, ⟨_, rfl⟩, rfl⟩
  · by_cases h1 : cfg.DisallowedCountries.length > 0 ∧ cfg.AllowedCountries.length > 0
    · rw [new_of_both_lists OpenDB nx cfg name h1]
      exact ⟨rfl, ⟨_, rfl⟩, rfl⟩
    · rw [new_of_no_path OpenDB nx cfg name h1 hen hpath]
      exact ⟨rfl, ⟨_, rfl⟩, rfl⟩

/-- C10 at the configuration of the test `NoDatabaseFilePath`. -/
theorem C10_missing_database_path_witness :
    (New sampleOpenDB () (some sampleNext) (some cfgNoPath) "geoblock").handler = none ∧
    (∃ err, (New sampleOpenDB () (some sampleNext) (some cfgNoPath) "geoblock").err
      = some err) ∧
    opened (New sampleOpenDB () (some sampleNext) (some cfgNoPath) "geoblock").effects = [] :=
  C10_missing_database_path sampleOpenDB (some sampleNext) cfgNoPath "geoblock"
    (by rfl) (by rfl)

theorem mem_mapInsert (ipMap : List String) (ip s : String) :
    s ∈ mapInsert ipMap ip ↔ s ∈ ipMap ∨ s = ip := by
  unfold mapInsert
  by_cases h : ip ∈ ipMap
  · rw [if_pos h]
    constructor
    · exact Or.inl
    · rintro (h1 | h1)
      · exact h1
      · exact h1 ▸ h
  · rw [if_neg h]
    simp

theorem nodup_mapInsert (ipMap : List String) (ip : String) (hn : ipMap.Nodup) :
    (mapInsert ipMap ip).Nodup := by
  unfold mapInsert
  by_cases h : ip ∈ ipMap
  · rw [if_pos h]
    exact hn
  · rw [if_neg h]
    exact List.Nodup.append hn (List.nodup_singleton ip) (by simpa using h)

/-- The keys of the map after the loop over the pieces of one header value. -/
theorem mem_collectIPs (s : String) :
    ∀ (pieces ipMap : List String),
      s ∈ collectIPs ipMap pieces ↔
        s ∈ ipMap ∨ (s ≠ "" ∧ ∃ piece ∈ pieces, TrimSpace piece = s) := by
  intro pieces
  induction pieces with
  | nil =>
    intro ipMap
    simp [collectIPs]
  | cons piece pieces ih =>
    intro ipMap
    by_cases hp : TrimSpace piece = ""
    · simp only [collectIPs, hp, if_true, ih, List.mem_cons, exists_eq_or_imp]
      constructor
      · rintro (h | ⟨h1, h2⟩)
        · exact Or.inl h
        · exact Or.inr ⟨h1, Or.inr h2⟩
      · rintro (h | ⟨h1, h2 | h2⟩)
        · exact Or.inl h
        · exact absurd h2.symm h1
        · exact Or.inr ⟨h1, h2⟩
    · simp only [collectIPs, hp, if_false, ih, mem_mapInsert, List.mem_cons, exists_eq_or_imp]
      constructor
      · rintro ((h | h) | ⟨h1, h2⟩)
        · exact Or.inl h
        · exact Or.inr ⟨fun e => hp (h ▸ e), Or.inl h.symm⟩
        · exact Or.inr ⟨h1, Or.inr h2⟩
      · rintro (h | ⟨h1, h2 | h2⟩)
        · exact Or.inl (Or.inl h)
        · exact Or.inl (Or.inr h2.symm)
        · exact Or.inr ⟨h1, h2⟩

theorem nodup_collectIPs :
    ∀ (pieces ipMap : List String), ipMap.Nodup → (collectIPs ipMap pieces).Nodup := by
  intro pieces
  induction pieces with
  | nil => intro ipMap hn; exact hn
  | cons piece pieces ih =>
    intro ipMap hn
    by_cases hp : TrimSpace piece = ""
    · simp only [collectIPs, hp, if_true]
      exact ih ipMap hn
    · simp only [collectIPs, hp, if_false]
      exact ih _ (nodup_mapInsert ipMap _ hn)

/-- The keys one header value adds, the guard on the empty value included. -/
theorem mem_collect_guarded (s v : String) (ipMap : List String) :
    s ∈ (if v ≠ "" then collectIPs ipMap (Split v ',') else ipMap) ↔
      s ∈ ipMap ∨ (s ≠ "" ∧ ∃ piece ∈ Split v ',', TrimSpace piece = s) := by
  by_cases hv : v = ""
  · subst hv
    simp only [ne_eq, not_true_eq_false, if_false]
    constructor
    · exact Or.inl
    · rintro (h | ⟨h1, piece, h2, h3⟩)
      · exact h
      · have hp : piece = "" := by
          have : Split "" ',' = [""] := by decide
          rw [this] at h2
          simpa using h2
        subst hp
        exact absurd (h3.symm.trans (by decide)) h1
  · rw [if_pos hv]
    exact mem_collectIPs s _ _

theorem nodup_collect_guarded (v : String) (ipMap : List String) (hn : ipMap.Nodup) :
    (if v ≠ "" then collectIPs ipMap (Split v ',') else ipMap).Nodup := by
  by_cases hv : v = ""
  · simp only [hv, ne_eq, not_true_eq_false, if_false]
    exact hn
  · rw [if_pos hv]
    exact nodup_collectIPs _ _ hn

theorem header_values_xff (h : Header) :
    h.Values "x-forwarded-for" = h.Values "X-Forwarded-For" := by
  unfold Header.Values
  rw [show CanonicalMIMEHeaderKey "x-forwarded-for" =
    CanonicalMIMEHeaderKey "X-Forwarded-For" by decide]

theorem header_values_xri (h : Header) : h.Values "x-real-ip" = h.Values "X-Real-IP" := by
  unfold Header.Values
  rw [show CanonicalMIMEHeaderKey "x-real-ip" = CanonicalMIMEHeaderKey "X-Real-IP" by decide]

theorem header_get_xff (h : Header) : h.Get "x-forwarded-for" = h.Get "X-Forwarded-For" := by
  unfold Header.Get
  rw [header_values_xff]

theorem header_get_xri (h : Header) : h.Get "x-real-ip" = h.Get "X-Real-IP" := by
  unfold Header.Get
  rw [header_values_xri]

theorem header_get_eq_head (h : Header) (key : String) :
    h.Get key = ((h.Values key).head?).getD "" := by
  unfold Header.Get
  rcases h.Values key with _ | ⟨v, vs⟩ <;> rfl

/-- The keys of the map `GetRemoteIPs` builds. -/
theorem mem_remoteIPMap (req : Request) (s : String) :
    s ∈ remoteIPMap req ↔
      s ≠ "" ∧ ∃ piece ∈ Split (req.Header.Get "X-Forwarded-For") ',' ++
        Split (req.Header.Get "X-Real-IP") ',', TrimSpace piece = s := by
  simp only [remoteIPMap, mem_collect_guarded, header_get_xff, header_get_xri,
    List.not_mem_nil, false_or, List.mem_append]
  constructor
  · rintro (⟨h1, piece, h2, h3⟩ | ⟨h1, piece, h2, h3⟩)
    · exact ⟨h1, piece, Or.inl h2, h3⟩
    · exact ⟨h1, piece, Or.inr h2, h3⟩
  · rintro ⟨h1, piece, h2 | h2, h3⟩
    · exact Or.inl ⟨h1, piece, h2, h3⟩
    · exact Or.inr ⟨h1, piece, h2, h3⟩

theorem nodup_remoteIPMap (req : Request) : (remoteIPMap req).Nodup := by
  simp only [remoteIPMap]
  exact nodup_collect_guarded _ _ (nodup_collect_guarded _ _ List.nodup_nil)

/-- C11 (candidate extraction): for every request and every map order,
`GetRemoteIPs` returns a list without repetition whose elements are exactly the
non-empty strings `TrimSpace piece`, for `piece` among the comma-separated pieces
of the value `Header.Get` reads for X-Forwarded-For and for X-Real-IP.  Nothing
else is tested: every non-empty trimmed piece is a candidate. -/
theorem C11_candidate_extraction (p : Plugin) (ord : MapOrder) (req : Request) :
    (p.GetRemoteIPs ord req).Nodup ∧
    ∀ s : String, s ∈ p.GetRemoteIPs ord req ↔
      s ≠ "" ∧ ∃ piece ∈ Split (req.Header.Get "X-Forwarded-For") ',' ++
        Split (req.Header.Get "X-Real-IP") ',', TrimSpace piece = s := by
  have hp : (p.GetRemoteIPs ord req).Perm (remoteIPMap req) := ord.perm _
  refine ⟨hp.nodup_iff.mpr (nodup_remoteIPMap req), fun s => ?_⟩
  rw [hp.mem_iff]
  exact mem_remoteIPMap req s

/-- A code that begins with "invalid" in any of the three spellings is caught by
the lower-cased test of `Lookup`. -/
theorem hasPrefix_invalid (rest : String) :
    HasPrefix (ToLower ("INVALID" ++ rest)) "invalid" = true ∧
    HasPrefix (ToLower ("Invalid" ++ rest)) "invalid" = true ∧
    HasPrefix (ToLower ("invalid" ++ rest)) "invalid" = true := by
  refine ⟨?_, ?_, ?_⟩ <;>
    simp [HasPrefix, ToLower, String.data_append, List.isPrefixOf, toLowerRune]

/-- C12 (country resolution): for a plugin with database `db` and every IP string,
`Lookup` returns an error iff the database call returns an error or the code it
returns, lower-cased, starts with "invalid"; it then returns the empty string with
the database's error, or with a new error whose text is the code.  In every other
case it returns the database's code unchanged with a nil error; the private
marker "-" comes back as "-", and a code spelled "INVALID...", "Invalid..." or
"invalid..." is an error. -/
theorem C12_country_resolution (p : Plugin) (db : DB) (ip : String)
    (hdb : p.db = some db) :
    ((∃ c err, p.Lookup ip = some (c, some err)) ↔
      ((db.Get_country_short ip).2 ≠ none ∨
        HasPrefix (ToLower (db.Get_country_short ip).1.Country_short) "invalid" = true)) ∧
    (∀ err, (db.Get_country_short ip).2 = some err → p.Lookup ip = some ("", some err)) ∧
    ((db.Get_country_short ip).2 = none →
      HasPrefix (ToLower (db.Get_country_short ip).1.Country_short) "invalid" = true →
      p.Lookup ip = some ("", some (.plain (db.Get_country_short ip).1.Country_short))) ∧
    ((db.Get_country_short ip).2 = none →
      HasPrefix (ToLower (db.Get_country_short ip).1.Country_short) "invalid" = false →
      p.Lookup ip = some ((db.Get_country_short ip).1.Country_short, none)) ∧
    (db.Get_country_short ip = (⟨"-"⟩, none) → p.Lookup ip = some ("-", none)) ∧
    (∀ rest : String,
      (db.Get_country_short ip = (⟨"INVALID" ++ rest⟩, none) ∨
       db.Get_country_short ip = (⟨"Invalid" ++ rest⟩, none) ∨
       db.Get_country_short ip = (⟨"invalid" ++ rest⟩, none)) →
      ∃ err, p.Lookup ip = some ("", some err)) := by
  have hl := lookup_of_db p db ip hdb
  rcases hg : db.Get_country_short ip with ⟨record, _ | e⟩
  · rw [hg] at hl
    simp only at hl
    by_cases hi : HasPrefix (ToLower record.Country_short) "invalid" = true
    · rw [if_pos hi] at hl
      refine ⟨?_, ?_, ?_, ?_, ?_, ?_⟩
      · exact ⟨fun _ => Or.inr hi, fun _ => ⟨_, _, hl⟩⟩
      · intro err he
        simp at he
      · intro _ _
        exact hl
      · intro _ hf
        rw [hi] at hf
        exact absurd hf (by decide)
      · intro he
        simp only [Prod.mk.injEq, and_true] at he
        rw [he] at hi
        exact absurd hi (by decide)
      · intro rest _
        exact ⟨_, hl⟩
    · rw [if_neg hi] at hl
      refine ⟨?_, ?_, ?_, ?_, ?_, ?_⟩
      · constructor
        · rintro ⟨c, err, h⟩
          rw [hl] at h
          simp at h
        · rintro (h | h)
          · exact absurd rfl h
          · exact absurd h hi
      · intro err he
        simp at he
      · intro _ h
        exact absurd h hi
      · intro _ _
        exact hl
      · intro he
        simp only [Prod.mk.injEq, and_true] at he
        rw [he] at hl
        exact hl
      · intro rest h
        exfalso
        apply hi
        obtain ⟨h1, h2, h3⟩ := hasPrefix_invalid rest
        simp only [Prod.mk.injEq, and_true] at h
        rcases h with h | h | h <;> rw [h]
        · exact h1
        · exact h2
        · exact h3
  · rw [hg] at hl
    simp only at hl
    refine ⟨?_, ?_, ?_, ?_, ?_, ?_⟩
    · exact ⟨fun _ => Or.inl (by simp), fun _ => ⟨_, _, hl⟩⟩
    · intro err he
      simp only [Option.some.injEq] at he
      rw [← he]
      exact hl
    · intro h
      simp at h
    · intro h
      simp at h
    · intro h
      simp at h
    · intro rest _
      exact ⟨_, hl⟩

/-- C12 at an address the sample database calls invalid. -/
theorem C12_country_resolution_witness :
    (∃ c err, pluginAllowUS.Lookup "not-an-ip" = some (c, some err)) ∧
    pluginAllowUS.Lookup "not-an-ip" = some ("", some (.plain "Invalid IP address.")) ∧
    pluginAllowUS.Lookup "192.168.178.66" = some ("-", none) :=
  have h := C12_country_resolution pluginAllowUS sampleDB "not-an-ip" (by rfl)
  ⟨h.1.mpr (Or.inr (by decide)), h.2.2.1 (by rfl) (by decide),
    (C12_country_resolution pluginAllowUS sampleDB "192.168.178.66" (by rfl)).2.2.2.2.1
      (by rfl)⟩

/-- C13 (no lists configured): for a plugin whose two country lists are empty and
an IP whose lookup succeeds with a code `C` other than "-", `CheckAllowed` returns
`C` with a nil error, whatever `allowPrivate` is. -/
theorem C13_no_lists (p : Plugin) (ip C : String)
    (ha : p.allowedCountries = [])
    (hd : p.disallowedCountries = [])
    (hlook : p.Lookup ip = some (C, none))
    (hC : C ≠ "-") :
    p.CheckAllowed ip = some (C, none) := by
  rw [checkAllowed_country p ip C hlook hC]
  simp [ha, hd]

/-- C13 at a US address and a plugin without lists that rejects private addresses. -/
theorem C13_no_lists_witness : pluginNoLists.CheckAllowed "1.1.1.1" = some ("US", none) :=
  C13_no_lists pluginNoLists "1.1.1.1" "US" (by rfl) (by rfl) (by decide) (by decide)

/-- C14 (missing collaborators): when the next handler is nil or the config is nil,
`New` returns a nil handler and a non-nil error and opens no database, whatever the
other arguments are. -/
theorem C14_missing_collaborators (OpenDB : String → Option DB × Option GoError)
    (next : Option Handler) (cfg : Option Config) (name : String)
    (h : next = none ∨ cfg = none) :
    (New OpenDB () next cfg name).handler = none ∧
    (∃ err, (New OpenDB () next cfg name).err = some err) ∧
    opened (New OpenDB () next cfg name).effects = [] := by
  rcases next with _ | nx
  · exact ⟨rfl, ⟨_, rfl⟩, rfl⟩
  · rcases cfg with _ | c
    · exact ⟨rfl, ⟨_, rfl⟩, rfl⟩
    · rcases h with h | h <;> simp at h

/-- C14 at a nil next handler with the otherwise valid US-only configuration (the
test `NoNextHandler`). -/
theorem C14_missing_collaborators_witness :
    (New sampleOpenDB () none (some cfgAllowUS) "geoblock").handler = none ∧
    (∃ err, (New sampleOpenDB () none (some cfgAllowUS) "geoblock").err = some err) ∧
    opened (New sampleOpenDB () none (some cfgAllowUS) "geoblock").effects = [] :=
  C14_missing_collaborators sampleOpenDB none (some cfgAllowUS) "geoblock" (Or.inl rfl)

/-- What `ServeHTTP` shows when every candidate passes. -/
theorem serveHTTP_of_pass (p : Plugin) (next : Handler) (ord : MapOrder)
    (rw : ResponseWriter) (req : Request)
    (hen : p.enabled = true) (hnext : p.next = some next)
    (hall : ∀ ip ∈ p.GetRemoteIPs ord req, ∃ c, p.CheckAllowed ip = some (c, none)) :
    nextCalls (p.ServeHTTP ord rw req) = [(next, rw, req)] ∧
    statusWrites (p.ServeHTTP ord rw req) = [] := by
  simp only [Plugin.ServeHTTP, hen, Bool.not_true, Bool.false_eq_true, if_false]
  rw [serveLoop_pass p rw req _ hall]
  simp only [Plugin.callNext, hnext, nextCalls, nextCalls_dbGets, statusWrites,
    statusWrites_dbGets, and_self]

/-- What `ServeHTTP` shows when `CheckAllowed` returns an error for a candidate. -/
theorem serveHTTP_of_reject (p : Plugin) (db : DB) (ord : MapOrder)
    (rw : ResponseWriter) (req : Request)
    (hen : p.enabled = true) (hdb : p.db = some db)
    (hex : ∃ ip ∈ p.GetRemoteIPs ord req, ∃ c e, p.CheckAllowed ip = some (c, some e)) :
    statusWrites (p.ServeHTTP ord rw req) = [(rw, StatusForbidden)] ∧
    nextCalls (p.ServeHTTP ord rw req) = [] := by
  obtain ⟨h1, h2, _⟩ := serveLoop_reject p db rw req hdb _ hex
  simp only [Plugin.ServeHTTP, hen, Bool.not_true, Bool.false_eq_true, if_false, statusWrites,
    nextCalls]
  exact ⟨h1, h2⟩

theorem serveHTTP_of_disabled (p : Plugin) (next : Handler) (ord : MapOrder)
    (rw : ResponseWriter) (req : Request)
    (hen : p.enabled = false) (hnext : p.next = some next) :
    p.ServeHTTP ord rw req = [Effect.next next rw req] := by
  simp only [Plugin.ServeHTTP, hen, Bool.not_false, if_true, Plugin.callNext, hnext]

/-- The database is queried for candidates only. -/
theorem lookups_serveLoop (p : Plugin) (rw : ResponseWriter) (req : Request) :
    ∀ ips : List String, ∀ ip ∈ lookups (p.serveLoop rw req ips), ip ∈ ips := by
  intro ips
  induction ips with
  | nil =>
    intro ip hip
    rcases hn : p.next with _ | h <;>
      simp [Plugin.serveLoop, Plugin.callNext, hn, lookups] at hip
  | cons ip0 ips ih =>
    intro ip hip
    rcases hc : p.CheckAllowed ip0 with _ | ⟨c, _ | e⟩
    · simp only [Plugin.serveLoop, hc, lookups, List.mem_singleton] at hip
      exact hip ▸ List.mem_cons_self _ _
    · simp only [Plugin.serveLoop, hc, lookups, List.mem_cons] at hip
      rcases hip with h | h
      · exact h ▸ List.mem_cons_self _ _
      · exact List.mem_cons_of_mem _ (ih ip h)
    · simp only [Plugin.serveLoop, hc] at hip
      by_cases hi : errorsIs e .ErrNotAllowed = true
      · simp only [hi, if_true, lookups, List.mem_singleton] at hip
        exact hip ▸ List.mem_cons_self _ _
      · simp only [hi, if_false, lookups, List.mem_singleton] at hip
        exact hip ▸ List.mem_cons_self _ _

theorem lookups_serveHTTP (p : Plugin) (ord : MapOrder) (rw : ResponseWriter)
    (req : Request) :
    ∀ ip ∈ lookups (p.ServeHTTP ord rw req), ip ∈ p.GetRemoteIPs ord req := by
  intro ip hip
  cases hen : p.enabled
  · rcases hn : p.next with _ | h <;>
      simp [Plugin.ServeHTTP, hen, Plugin.callNext, hn, lookups] at hip
  · simp only [Plugin.ServeHTTP, hen, Bool.not_true, Bool.false_eq_true, if_false,
      lookups] at hip
    exact lookups_serveLoop p rw req _ ip hip

/-- C15 (the decision depends only on the candidate set): for a plugin with
downstream handler `next` and, when enabled, a database, any two requests whose
extracted candidate lists have the same elements, in any order and under any map
order, get the same outcome from `ServeHTTP`: both are handed to `next` with no
status written, or both are answered `403` without a call of `next`. -/
theorem C15_candidate_set_only (p : Plugin) (next : Handler) (ord1 ord2 : MapOrder)
    (rw1 rw2 : ResponseWriter) (req1 req2 : Request)
    (hnext : p.next = some next)
    (hdb : p.enabled = true → ∃ db, p.db = some db)
    (hsame : ∀ ip, ip ∈ p.GetRemoteIPs ord1 req1 ↔ ip ∈ p.GetRemoteIPs ord2 req2) :
    (nextCalls (p.ServeHTTP ord1 rw1 req1) = [(next, rw1, req1)] ∧
      statusWrites (p.ServeHTTP ord1 rw1 req1) = [] ∧
      nextCalls (p.ServeHTTP ord2 rw2 req2) = [(next, rw2, req2)] ∧
      statusWrites (p.ServeHTTP ord2 rw2 req2) = []) ∨
    (statusWrites (p.ServeHTTP ord1 rw1 req1) = [(rw1, StatusForbidden)] ∧
      nextCalls (p.ServeHTTP ord1 rw1 req1) = [] ∧
      statusWrites (p.ServeHTTP ord2 rw2 req2) = [(rw2, StatusForbidden)] ∧
      nextCalls (p.ServeHTTP ord2 rw2 req2) = []) := by
  cases hen : p.enabled
  · left
    rw [serveHTTP_of_disabled p next ord1 rw1 req1 hen hnext,
      serveHTTP_of_disabled p next ord2 rw2 req2 hen hnext]
    exact ⟨rfl, rfl, rfl, rfl⟩
  · obtain ⟨db, hd⟩ := hdb hen
    by_cases hex : ∃ ip ∈ p.GetRemoteIPs ord1 req1, ∃ c e, p.CheckAllowed ip = some (c, some e)
    · right
      have hex2 : ∃ ip ∈ p.GetRemoteIPs ord2 req2, ∃ c e,
          p.CheckAllowed ip = some (c, some e) := by
        obtain ⟨ip, hm, h⟩ := hex
        exact ⟨ip, (hsame ip).mp hm, h⟩
      obtain ⟨a1, a2⟩ := serveHTTP_of_reject p db ord1 rw1 req1 hen hd hex
      obtain ⟨b1, b2⟩ := serveHTTP_of_reject p db ord2 rw2 req2 hen hd hex2
      exact ⟨a1, a2, b1, b2⟩
    · left
      have hall1 : ∀ ip ∈ p.GetRemoteIPs ord1 req1, ∃ c, p.CheckAllowed ip = some (c, none) := by
        intro ip hm
        rcases hc : p.CheckAllowed ip with _ | ⟨c, _ | e⟩
        · exact absurd hc (checkAllowed_ne_none p db ip hd)
        · exact ⟨c, rfl⟩
        · exact absurd ⟨ip, hm, c, e, hc⟩ hex
      have hall2 : ∀ ip ∈ p.GetRemoteIPs ord2 req2, ∃ c, p.CheckAllowed ip = some (c, none) :=
        fun ip hm => hall1 ip ((hsame ip).mpr hm)
      obtain ⟨a1, a2⟩ := serveHTTP_of_pass p next ord1 rw1 req1 hen hnext hall1
      obtain ⟨b1, b2⟩ := serveHTTP_of_pass p next ord2 rw2 req2 hen hnext hall2
      exact ⟨a1, a2, b1, b2⟩

/-- C15 at two requests that name the same US and Polish addresses in different
headers and orders, under the US-only policy. -/
theorem C15_candidate_set_only_witness :
    (nextCalls (pluginAllowUS.ServeHTTP orderInserted sampleRW reqUSThenPL) =
        [(sampleNext, sampleRW, reqUSThenPL)] ∧
      statusWrites (pluginAllowUS.ServeHTTP orderInserted sampleRW reqUSThenPL) = [] ∧
      nextCalls (pluginAllowUS.ServeHTTP orderInserted sampleRW reqPLThenUS) =
        [(sampleNext, sampleRW, reqPLThenUS)] ∧
      statusWrites (pluginAllowUS.ServeHTTP orderInserted sampleRW reqPLThenUS) = []) ∨
    (statusWrites (pluginAllowUS.ServeHTTP orderInserted sampleRW reqUSThenPL) =
        [(sampleRW, StatusForbidden)] ∧
      nextCalls (pluginAllowUS.ServeHTTP orderInserted sampleRW reqUSThenPL) = [] ∧
      statusWrites (pluginAllowUS.ServeHTTP orderInserted sampleRW reqPLThenUS) =
        [(sampleRW, StatusForbidden)] ∧
      nextCalls (pluginAllowUS.ServeHTTP orderInserted sampleRW reqPLThenUS) = []) :=
  C15_candidate_set_only pluginAllowUS sampleNext orderInserted orderInserted sampleRW sampleRW
    reqUSThenPL reqPLThenUS (by rfl) (fun _ => ⟨sampleDB, rfl⟩)
    (by
      intro ip
      have h1 : pluginAllowUS.GetRemoteIPs orderInserted reqUSThenPL =
          ["1.1.1.1", "5.5.5.5"] := by decide
      have h2 : pluginAllowUS.GetRemoteIPs orderInserted reqPLThenUS =
          ["5.5.5.5", "1.1.1.1"] := by decide
      rw [h1, h2]
      simp only [List.mem_cons, List.mem_singleton, List.not_mem_nil, or_false]
      exact Or.comm)

/-- C16 (both lists set): for a plugin state with both country lists non-empty and
an IP whose lookup succeeds with a code `C` other than "-", `CheckAllowed` applies
the allow list and then the deny list: its error is nil iff `C` is in the allow
list and not in the deny list, and `ErrNotAllowed` otherwise, so a country in both
lists is rejected.  No plugin returned by `New` is in such a state. -/
theorem C16_both_lists (p : Plugin) (ip C : String)
    (ha : p.allowedCountries ≠ [])
    (hd : p.disallowedCountries ≠ [])
    (hlook : p.Lookup ip = some (C, none))
    (hC : C ≠ "-") :
    ((∃ c, p.CheckAllowed ip = some (c, none)) ↔
      (C ∈ p.allowedCountries ∧ C ∉ p.disallowedCountries)) ∧
    (C ∈ p.allowedCountries ∧ C ∉ p.disallowedCountries →
      p.CheckAllowed ip = some (C, none)) ∧
    (¬ (C ∈ p.allowedCountries ∧ C ∉ p.disallowedCountries) →
      p.CheckAllowed ip = some (C, some .ErrNotAllowed)) ∧
    (C ∈ p.allowedCountries → C ∈ p.disallowedCountries →
      p.CheckAllowed ip = some (C, some .ErrNotAllowed)) ∧
    (∀ (OpenDB : String → Option DB × Option GoError) (next : Option Handler)
      (cfg : Option Config) (name : String),
      (New OpenDB () next cfg name).handler ≠ some p) := by
  have hca := checkAllowed_country p ip C hlook hC
  simp only [ne_eq, ha, hd, not_false_eq_true, true_and] at hca
  have hyes : C ∈ p.allowedCountries ∧ C ∉ p.disallowedCountries →
      p.CheckAllowed ip = some (C, none) := by
    rintro ⟨h1, h2⟩
    rw [hca]
    simp [h1, h2]
  have hno : ¬ (C ∈ p.allowedCountries ∧ C ∉ p.disallowedCountries) →
      p.CheckAllowed ip = some (C, some .ErrNotAllowed) := by
    intro h
    rw [hca]
    have h3 : C ∉ p.allowedCountries ∨ C ∈ p.disallowedCountries := by
      by_cases h1 : C ∈ p.allowedCountries
      · right
        by_contra h2
        exact h ⟨h1, h2⟩
      · exact Or.inl h1
    rw [if_pos h3]
  refine ⟨⟨?_, fun h => ⟨C, hyes h⟩⟩, hyes, hno, fun h1 h2 => hno (fun h => h.2 h2), ?_⟩
  · rintro ⟨c, hc⟩
    by_contra h
    rw [hno h] at hc
    simp at hc
  · intro OpenDB next cfg name hnew
    rcases new_lists_exclusive OpenDB next cfg name p hnew with h | h
    · exact ha h
    · exact hd h

/-- C16 at a Polish address and a plugin state that both allows and denies Poland. -/
theorem C16_both_lists_witness :
    pluginBothLists.CheckAllowed "5.5.5.5" = some ("PL", some .ErrNotAllowed) :=
  (C16_both_lists pluginBothLists "5.5.5.5" "PL" (by decide) (by decide) (by decide)
    (by decide)).2.2.2.1 (by decide) (by decide)

/-- C17 (only the first value of each header is read): two requests that agree on
the first value of X-Forwarded-For and on the first value of X-Real-IP have the
same candidates, whatever further values they carry; and for the request
`reqTwoValues`, whose second values name 5.5.5.5, that address is not a candidate
and is never looked up by `ServeHTTP`, for any plugin and any map order. -/
theorem C17_first_value_only :
    (∀ (p : Plugin) (ord : MapOrder) (req1 req2 : Request),
      (req1.Header.Values "X-Forwarded-For").head? =
        (req2.Header.Values "X-Forwarded-For").head? →
      (req1.Header.Values "X-Real-IP").head? = (req2.Header.Values "X-Real-IP").head? →
      p.GetRemoteIPs ord req1 = p.GetRemoteIPs ord req2) ∧
    (∀ (p : Plugin) (ord : MapOrder) (rw : ResponseWriter),
      "5.5.5.5" ∈ (reqTwoValues.Header.Values "X-Forwarded-For").tail ∧
      "5.5.5.5" ∈ (reqTwoValues.Header.Values "X-Real-IP").tail ∧
      "5.5.5.5" ∉ p.GetRemoteIPs ord reqTwoValues ∧
      "5.5.5.5" ∉ lookups (p.ServeHTTP ord rw reqTwoValues)) := by
  constructor
  · intro p ord req1 req2 h1 h2
    have e1 : req1.Header.Get "x-forwarded-for" = req2.Header.Get "x-forwarded-for" := by
      rw [header_get_eq_head, header_get_eq_head, header_values_xff, header_values_xff, h1]
    have e2 : req1.Header.Get "x-real-ip" = req2.Header.Get "x-real-ip" := by
      rw [header_get_eq_head, header_get_eq_head, header_values_xri, header_values_xri, h2]
    simp only [Plugin.GetRemoteIPs, remoteIPMap, e1, e2]
  · intro p ord rw
    have hnot : "5.5.5.5" ∉ p.GetRemoteIPs ord reqTwoValues := by
      have hp : (p.GetRemoteIPs ord reqTwoValues).Perm (remoteIPMap reqTwoValues) :=
        ord.perm _
      rw [hp.mem_iff]
      decide
    exact ⟨by decide, by decide, hnot,
      fun h => hnot (lookups_serveHTTP p ord rw reqTwoValues _ h)⟩

/-- C17 at the request with two values per header and its cut to the first values. -/
theorem C17_first_value_only_witness :
    pluginAllowUS.GetRemoteIPs orderInserted reqTwoValues =
      pluginAllowUS.GetRemoteIPs orderInserted reqFirstValues :=
  C17_first_value_only.1 pluginAllowUS orderInserted reqTwoValues reqFirstValues
    (by decide) (by decide)

end Geoblock
